import Mathlib

/-!
Verification of the callScheduler repository against its specification.

Shallow embedding conventions:
* Calendar dates are modelled as integers counting days since 1970-01-01
  (a Thursday), so Python's `date.weekday()` (Monday = 0) becomes
  `(d + 3) % 7`.  Adding `timedelta(days = k)` is `d + k`.
* Python `float` quantities (FTE values, the 1.2 capacity buffer) are
  modelled as exact rationals.
* Python dicts keyed by ids/dates are modelled either as association
  lists with overwrite-on-insert or as `Option`-valued functions,
  matching `dict.get` semantics.
* External HTTP lookups are parameters of the embedded functions; a call
  that may raise is modelled with `Except Unit`.
-/

/-- Python `date.weekday()`: Monday = 0 … Sunday = 6, for a date given as
days since 1970-01-01 (which was a Thursday, weekday 3). -/
def pyWeekday (d : Int) : Int := (d + 3) % 7

/-- `CallScheduleOptimizer._generate_date_range`: the inclusive list of
dates from `s` to `e` (the Python loop `while current <= end`). -/
def generateDateRange (s e : Int) : List Int :=
  if s ≤ e then s :: generateDateRange (s + 1) e else []
termination_by (e + 1 - s).toNat
decreasing_by omega

/-- Python `str.endswith`, modelled over the character list. -/
def pyEndsWith (s suffix : String) : Bool := suffix.toList.isSuffixOf s.toList

/-- ASCII lower-casing of one character, modelling Python `str.lower()`
on the ASCII duty-type codes used by the repository. -/
def asciiLower (c : Char) : Char :=
  if 'A' ≤ c ∧ c ≤ 'Z' then Char.ofNat (c.toNat + 32) else c

/-- Lower-case an ASCII string (model of Python `str.lower()`). -/
def strLower (s : String) : List Char := s.toList.map asciiLower

/-- Contiguous-sublist test on character lists. -/
def charSub (needle : List Char) : List Char → Bool
  | [] => needle.isEmpty
  | c :: rest => needle.isPrefixOf (c :: rest) || charSub needle rest

/-- Python's `needle in haystack` substring test, after lower-casing the
haystack as the source does (`weekend_call_type.lower()`). -/
def pyInLower (needle : String) (haystack : String) : Bool :=
  charSub needle.toList (strLower haystack)

/-! ## weekend_rules_engine.py -/

/-- `WeekendAssignment` dataclass. -/
structure WeekendAssignment where
  user_id : Int
  date : Int
  call_type : String
  is_required_pair : Bool := false
deriving DecidableEq, Repr

/-- `WeekendRulesEngine.friday_to_weekend_rules` (static table). -/
def friday_to_weekend_rules : List (String × String) :=
  [("LP7", "LPG"), ("MCL7", "MCLG"), ("THDN7", "THDNG"), ("THRW7", "THRWG"),
   ("LPG", "LPO"), ("MCLG", "MCLO"), ("THDNG", "THDNO"), ("THRWG", "THROB"),
   ("LPO", "LPG"), ("MCLO", "MCLG"), ("THDNO", "THDNG"), ("THROB", "THRWG"),
   ("CMCG", "CMCO"), ("CMCO", "CMCG")]

/-- Dictionary lookup in `friday_to_weekend_rules`. -/
def fridayRuleLookup (ct : String) : Option String :=
  (friday_to_weekend_rules.find? (fun p => p.1 == ct)).map (·.2)

/-- `WeekendRulesEngine.weekend_consecutive_rules`: the Python values are
`['NE']` (a singleton list, of which element 0 is taken) or a plain
string, so the lookup result is a single call type either way. -/
def weekendConsecutiveLookup (ct : String) : Option String :=
  if ct == "NE" then some "NE"
  else if ct == "MCKT_D" then some "MCKG_D"
  else if ct == "MCKG_D" then some "MCKT_D"
  else none

/-- `WeekendRulesEngine.get_friday_pairing`: day ("saturday"/"sunday")
and required call type for a Friday call, or `none`. -/
def get_friday_pairing (friday_call_type : String) : Option (String × String) :=
  match fridayRuleLookup friday_call_type with
  | none => none
  | some weekend_call_type =>
    if pyEndsWith friday_call_type "7" then some ("saturday", weekend_call_type)
    else if friday_call_type == "CMCG" || friday_call_type == "CMCO" then
      some ("sunday", weekend_call_type)
    else some ("sunday", weekend_call_type)

/-- `WeekendRulesEngine.get_weekend_consecutive_pairing`. -/
def get_weekend_consecutive_pairing (saturday_call_type : String) : Option String :=
  weekendConsecutiveLookup saturday_call_type

/-- Modelled from the spec: `call_optimizer.py` calls
`self.weekend_rules.get_weekend_assignment(call_type, day)`, but
`WeekendRulesEngine` defines no such method (the real call raises
`AttributeError`).  Per spec §4.1 (`pairingFor(dutyType, triggerDayType)`)
the intended lookup returns the paired duty type from the static tables:
the `friday_to_weekend_rules` value for `'friday'` and the
weekend-consecutive value for `'saturday'`. -/
def get_weekend_assignment (call_type : String) (day : String) : Option String :=
  if day == "friday" then fridayRuleLookup call_type
  else if day == "saturday" then weekendConsecutiveLookup call_type
  else none

/-- The initial `assignments_by_date` dict of `apply_sandwich_rules`,
modelled as a date-indexed function (Python `dict` of lists; a missing
key behaves as the empty list). -/
def groupByDate (assignments : List WeekendAssignment) : Int → List WeekendAssignment :=
  fun d => assignments.filter (fun a => a.date == d)

/-- The tail of the Friday-loop body of `apply_sandwich_rules`: if the
user already holds an assignment on `target_date` in
`assignments_by_date` do nothing, else append the required pair to both
`updated_assignments` and `assignments_by_date`. -/
def pairAdd (st : List WeekendAssignment × (Int → List WeekendAssignment))
    (uid target_date : Int) (weekend_call_type : String) :
    List WeekendAssignment × (Int → List WeekendAssignment) :=
  if (st.2 target_date).any (fun w => w.user_id == uid) then st
  else
    (st.1 ++ [{ user_id := uid, date := target_date,
                call_type := weekend_call_type, is_required_pair := true }],
     fun d => if d == target_date then
         st.2 d ++ [{ user_id := uid, date := target_date,
                      call_type := weekend_call_type, is_required_pair := true }]
       else st.2 d)

/-- One iteration of the Friday → weekend loop of `apply_sandwich_rules`.
State: (`updated_assignments`, `assignments_by_date`). -/
def fridayStep (unavailable_users : List Int)
    (st : List WeekendAssignment × (Int → List WeekendAssignment))
    (a : WeekendAssignment) :
    List WeekendAssignment × (Int → List WeekendAssignment) :=
  if unavailable_users.contains a.user_id then st
  else if pyWeekday a.date == 4 then
    match get_friday_pairing a.call_type with
    | none => st
    | some (weekend_day, weekend_call_type) =>
      pairAdd st a.user_id
        (if weekend_day == "saturday" then a.date + 1 else a.date + 2) weekend_call_type
  else st

/-- One iteration of the Saturday → Sunday loop of `apply_sandwich_rules`.
The Python code reads `assignments_by_date` (as left by the Friday loop)
but does not update it here, so `byDate` is a fixed parameter. -/
def saturdayStep (unavailable_users : List Int)
    (byDate : Int → List WeekendAssignment)
    (upd : List WeekendAssignment) (a : WeekendAssignment) : List WeekendAssignment :=
  if unavailable_users.contains a.user_id then upd
  else if pyWeekday a.date == 5 then
    match get_weekend_consecutive_pairing a.call_type with
    | none => upd
    | some sunday_call_type =>
      if (byDate (a.date + 1)).any (fun w => w.user_id == a.user_id) then upd
      else upd ++ [{ user_id := a.user_id, date := a.date + 1,
                     call_type := sunday_call_type, is_required_pair := true }]
  else upd

/-- `WeekendRulesEngine.apply_sandwich_rules`: both passes iterate over
the *original* assignment list, appending pairs to a copy. -/
def apply_sandwich_rules (assignments : List WeekendAssignment)
    (unavailable_users : List Int) : List WeekendAssignment :=
  let st1 := assignments.foldl (fridayStep unavailable_users)
    (assignments, groupByDate assignments)
  assignments.foldl (saturdayStep unavailable_users st1.2) st1.1

/-- First-occurrence key order of a Python dict built by repeated
`d[k] = v` over this list of keys. -/
def pyKeys : List Int → List Int
  | [] => []
  | k :: rest => k :: (pyKeys rest).filter (fun x => x != k)

/-- `user_assignments[user_id][date]` of `validate_sandwich_compliance`:
the call type of the *last* assignment of `user_id` on `date` (Python
dict overwrite), or `none`. -/
def userDateLookup (assignments : List WeekendAssignment) (u d : Int) : Option String :=
  assignments.foldl
    (fun acc a => if a.user_id == u && a.date == d then some a.call_type else acc) none

/-- Insertion into a ≤-sorted list (stable). -/
def insertSorted (x : Int) : List Int → List Int
  | [] => [x]
  | y :: rest => if x ≤ y then x :: y :: rest else y :: insertSorted x rest

/-- Python `sorted` on integer keys (any stable comparison sort; here
insertion sort). -/
def sortInts (l : List Int) : List Int := l.foldr insertSorted []

/-- The per-date body of `validate_sandwich_compliance`: the violation
messages contributed for user `user_id` at date `d`, where `m` is that
user's date → call-type map. -/
def checkDate (user_id : Int) (m : Int → Option String) (d : Int) : List String :=
  match m d with
  | none => []
  | some call_type =>
    (if pyWeekday d == 4 then
      match get_friday_pairing call_type with
      | none => []
      | some (weekend_day, expected_call_type) =>
        let target_date := d + (if weekend_day == "saturday" then 1 else 2)
        match m target_date with
        | none =>
          [s!"User {user_id}: Friday {call_type} on {d} requires {expected_call_type} on {target_date}, but no assignment found"]
        | some actual =>
          if actual == expected_call_type then []
          else
            [s!"User {user_id}: Friday {call_type} on {d} requires {expected_call_type} on {target_date}, but assigned {actual}"]
     else []) ++
    (if pyWeekday d == 5 then
      match get_weekend_consecutive_pairing call_type with
      | none => []
      | some expected_sunday_type =>
        let sunday_date := d + 1
        match m sunday_date with
        | none =>
          [s!"User {user_id}: Saturday {call_type} on {d} requires {expected_sunday_type} on {sunday_date}, but no assignment found"]
        | some actual =>
          if actual == expected_sunday_type then []
          else
            [s!"User {user_id}: Saturday {call_type} on {d} requires {expected_sunday_type} on {sunday_date}, but assigned {actual}"]
     else [])

/-- `WeekendRulesEngine.validate_sandwich_compliance`. -/
def validate_sandwich_compliance (assignments : List WeekendAssignment) : List String :=
  let users := pyKeys (assignments.map (·.user_id))
  users.flatMap (fun u =>
    let m := userDateLookup assignments u
    let dates := sortInts (pyKeys ((assignments.filter (fun a => a.user_id == u)).map (·.date)))
    dates.flatMap (checkDate u m))

/-! ## constraint_validator.py -/

/-- `UserAvailability` dataclass.  Date *sets* are modelled as lists
(only membership is ever used); `fte` is an exact rational standing for
the Python float. -/
structure UserAvailability where
  user_id : Int
  user_name : String
  user_group : String
  fte : ℚ
  vacation_dates : List Int := []
  no_call_dates : List Int := []
  part_time_dates : List Int := []
  current_call_count : Int := 0
deriving DecidableEq, Repr

/-- `UserAvailability.is_available`. -/
def UserAvailability.is_available (ua : UserAvailability) (target_date : Int) : Bool :=
  !(ua.vacation_dates.contains target_date) && !(ua.no_call_dates.contains target_date)

/-- One roster row as consumed by `AvailabilityLoader.load_user_availability`
(`userid`, `coregroup`, `fname`, `lname`). -/
structure RosterUser where
  userid : Int
  coregroup : String
  fname : String
  lname : String
deriving DecidableEq, Repr

/-- Body of the `/External/get_users_editableFieldValue` response used by
`AvailabilityLoader._get_user_fte`. -/
structure FteResponse where
  success : Bool
  value : Option ℚ
deriving DecidableEq, Repr

/-- One row of a `get_assignments_by_schedule` response (`uId`, `date`). -/
structure AssignRec where
  uId : Int
  date : Int
deriving DecidableEq, Repr

/-- `AvailabilityLoader._get_user_fte`: the whole body is wrapped in
`try/except`, so a failing request (`Except.error`) degrades to 1.0;
values above 1.0 are treated as percentages. -/
def get_user_fte (fteResp : Int → Except Unit FteResponse) (user_id : Int) : ℚ :=
  match fteResp user_id with
  | .error _ => 1
  | .ok r =>
    if r.success then
      match r.value with
      | some fte_float => if fte_float > 1 then fte_float / 100 else fte_float
      | none => 1
    else 1

/-- The eligible employment groups of `load_user_availability`. -/
def eligible_groups : List String :=
  ["Full Time", "Part Time", "Part Time + Self Select", "PRN (Call Only)"]

/-- Python `dict[k] = v` on an association list: overwrite in place if
the key exists, else append. -/
def dictInsert (m : List (Int × UserAvailability)) (k : Int) (v : UserAvailability) :
    List (Int × UserAvailability) :=
  if m.any (fun p => p.1 == k) then
    m.map (fun p => if p.1 == k then (k, v) else p)
  else m ++ [(k, v)]

/-- Association-list lookup (Python `dict` access / `.get`). -/
def dictLookup (m : List (Int × UserAvailability)) (k : Int) : Option UserAvailability :=
  (m.find? (fun p => p.1 == k)).map (·.2)

/-- The per-user body of the `load_user_availability` loop: builds the
`UserAvailability` record from the three schedule queries (384 vacation,
385 no-call, 386 part-time), each filtered to this user's id.  The three
queries run inside the loop and are *not* wrapped in `try/except`, so a
failing query propagates (`Except.error`). -/
def loadOneUser (fteResp : Int → Except Unit FteResponse)
    (schedResp : Int → Except Unit (List AssignRec))
    (user : RosterUser) : Except Unit UserAvailability := do
  let fte := get_user_fte fteResp user.userid
  let vacation_assignments ← schedResp 384
  let no_call_assignments ← schedResp 385
  let part_time_assignments ← schedResp 386
  pure
    { user_id := user.userid
      user_name := user.fname ++ " " ++ user.lname
      user_group := user.coregroup
      fte := fte
      vacation_dates :=
        ((vacation_assignments.filter (fun a => a.uId == user.userid)).map (·.date))
      no_call_dates :=
        ((no_call_assignments.filter (fun a => a.uId == user.userid)).map (·.date))
      part_time_dates :=
        ((part_time_assignments.filter (fun a => a.uId == user.userid)).map (·.date)) }

/-- `AvailabilityLoader.load_user_availability`: roster fetch, filter to
eligible employment groups, then one record per user id (dict insert).
External lookups are parameters; any uncaught failure propagates. -/
def load_user_availability (rosterResp : Except Unit (List RosterUser))
    (fteResp : Int → Except Unit FteResponse)
    (schedResp : Int → Except Unit (List AssignRec)) :
    Except Unit (List (Int × UserAvailability)) := do
  let users ← rosterResp
  users.foldlM
    (fun user_availabilities user => do
      if eligible_groups.contains user.coregroup then
        let user_avail ← loadOneUser fteResp schedResp user
        pure (dictInsert user_availabilities user.userid user_avail)
      else
        pure user_availabilities)
    []

/-! ## call_optimizer.py — the constraint model

`optimize_schedule` (lines 89–172) builds a CP-SAT model over boolean
decision variables `assignments[user][date][call_type]`.  The model is
embedded as a decidable satisfaction predicate on candidate solutions
`sol : Int → Int → String → Bool`; each `*Ok` function below is the
exact set of constraints one code block adds, so `modelSat` holds of
`sol` iff `sol` is a feasible point of the code's model.  The auxiliary
CP variables `max_assignments` / `min_assignments` / `fairness_penalty`
are pinned by `AddMaxEquality` / `AddMinEquality` / an equality
constraint, so in every feasible solution they equal the max / min /
spread of the per-user totals; they are embedded as the derived values
`maxAssignments` / `minAssignments` / `fairnessPenalty`. -/

/-- Constraint 1 (lines 102–108): each call type covered exactly once
per day. -/
def coverageOk (eligible_users : List Int) (dates : List Int) (call_types : List String)
    (sol : Int → Int → String → Bool) : Bool :=
  dates.all fun d => call_types.all fun c =>
    (eligible_users.countP fun u => sol u d c) == 1

/-- Constraint 2 (lines 110–116): no user has two assignments on the
same day. -/
def exclusivityOk (eligible_users : List Int) (dates : List Int) (call_types : List String)
    (sol : Int → Int → String → Bool) : Bool :=
  eligible_users.all fun u => dates.all fun d =>
    (call_types.countP fun c => sol u d c) ≤ 1

/-- Constraint 3 (lines 118–127): a user with an availability record is
forced to 0 on vacation / no-call dates (`part_time_dates` is not
consulted). -/
def availabilityOk (eligible_users : List Int) (dates : List Int) (call_types : List String)
    (avail : Int → Option UserAvailability)
    (sol : Int → Int → String → Bool) : Bool :=
  eligible_users.all fun u =>
    match avail u with
    | none => true
    | some user_avail =>
      dates.all fun d =>
        if user_avail.vacation_dates.contains d || user_avail.no_call_dates.contains d then
          call_types.all fun c => sol u d c == false
        else true

/-- Constraint 4 (lines 129–142): minimum days between calls.  The
anchor loop is `enumerate(dates[:-min_days_between_calls])`, so anchors
range over the first `n - g` positions only. -/
def minGapOk (eligible_users : List Int) (dates : List Int) (call_types : List String)
    (min_days_between_calls : Nat)
    (sol : Int → Int → String → Bool) : Bool :=
  if min_days_between_calls > 0 then
    eligible_users.all fun u =>
      (List.range (dates.length - min_days_between_calls)).all fun i =>
        (List.range min_days_between_calls).all fun k =>
          let j := i + (k + 1)
          if j < dates.length then
            call_types.all fun c1 => call_types.all fun c2 =>
              !(sol u (dates.getD i 0) c1) || !(sol u (dates.getD j 0) c2)
          else true
  else true

/-- The Friday branch of `_add_weekend_sandwich_constraints`
(lines 320–344), with the absent `get_weekend_assignment` modelled from
the spec (see its doc comment).  The implication is added only when the
paired call type's lower-cased name contains `'saturday'` or `'sunday'`. -/
def fridayWeekendOk (eligible_users : List Int) (dates : List Int) (call_types : List String)
    (sol : Int → Int → String → Bool) : Bool :=
  (List.range dates.length).all fun i =>
    let date_obj := dates.getD i 0
    if pyWeekday date_obj == 4 && i + 2 < dates.length then
      let saturday := dates.getD (i + 1) 0
      let sunday := dates.getD (i + 2) 0
      eligible_users.all fun u => call_types.all fun call_type =>
        match get_weekend_assignment call_type "friday" with
        | none => true
        | some weekend_call_type =>
          if call_types.contains weekend_call_type then
            if pyInLower "saturday" weekend_call_type then
              !(sol u date_obj call_type) || sol u saturday weekend_call_type
            else if pyInLower "sunday" weekend_call_type then
              !(sol u date_obj call_type) || sol u sunday weekend_call_type
            else true
          else true
    else true

/-- The Saturday branch of `_add_weekend_sandwich_constraints`
(lines 346–359), with the absent `get_weekend_assignment` modelled from
the spec. -/
def saturdayWeekendOk (eligible_users : List Int) (dates : List Int) (call_types : List String)
    (sol : Int → Int → String → Bool) : Bool :=
  (List.range dates.length).all fun i =>
    let date_obj := dates.getD i 0
    if pyWeekday date_obj == 5 && i + 1 < dates.length then
      let sunday := dates.getD (i + 1) 0
      eligible_users.all fun u => call_types.all fun call_type =>
        match get_weekend_assignment call_type "saturday" with
        | none => true
        | some sunday_call_type =>
          if call_types.contains sunday_call_type then
            !(sol u date_obj call_type) || sol u sunday sunday_call_type
          else true
    else true

/-- Total number of assignments of `u` in a solution (the model's
`total_assignments_per_user[u]`). -/
def totalAssignments (dates : List Int) (call_types : List String)
    (sol : Int → Int → String → Bool) (u : Int) : Nat :=
  (dates.map fun d => call_types.countP fun c => sol u d c).sum

/-- `_add_fte_based_constraints` cap (lines 361–380):
`int(avg_calls_per_user * fte * 1.2)`, with the Python float arithmetic
modelled exactly over the rationals; `int` truncates, which is `⌊·⌋` for
the non-negative values that arise. -/
def maxCallsForUser (eligible_users : List Int) (dates : List Int) (call_types : List String)
    (fte : ℚ) : Int :=
  let total_call_slots : ℚ := (call_types.length : ℚ) * (dates.length : ℚ)
  let avg_calls_per_user : ℚ := total_call_slots / (eligible_users.length : ℚ)
  ⌊avg_calls_per_user * fte * (6 / 5 : ℚ)⌋

/-- Constraint 6 (`_add_fte_based_constraints`): only users *with* an
availability record are capped. -/
def fteOk (eligible_users : List Int) (dates : List Int) (call_types : List String)
    (avail : Int → Option UserAvailability)
    (sol : Int → Int → String → Bool) : Bool :=
  eligible_users.all fun u =>
    match avail u with
    | none => true
    | some user_avail =>
      (totalAssignments dates call_types sol u : Int) ≤
        maxCallsForUser eligible_users dates call_types user_avail.fte

/-- Feasibility in the CP-SAT model built by `optimize_schedule`
(constraints 1–6). -/
def modelSat (eligible_users : List Int) (dates : List Int) (call_types : List String)
    (avail : Int → Option UserAvailability) (min_days_between_calls : Nat)
    (sol : Int → Int → String → Bool) : Bool :=
  coverageOk eligible_users dates call_types sol &&
  exclusivityOk eligible_users dates call_types sol &&
  availabilityOk eligible_users dates call_types avail sol &&
  minGapOk eligible_users dates call_types min_days_between_calls sol &&
  fridayWeekendOk eligible_users dates call_types sol &&
  saturdayWeekendOk eligible_users dates call_types sol &&
  fteOk eligible_users dates call_types avail sol

/-- Maximum of a list of naturals (0 on the empty list, which the code
never produces: `eligible_users` is non-empty past the early return). -/
def listMax (l : List Nat) : Nat := l.foldl max 0

/-- Minimum of a non-empty list of naturals. -/
def listMin (l : List Nat) : Nat :=
  match l with
  | [] => 0
  | t :: ts => ts.foldl min t

/-- Value of the `max_assignments` variable in a feasible solution
(`AddMaxEquality` over the per-user totals). -/
def maxAssignments (eligible_users : List Int) (dates : List Int) (call_types : List String)
    (sol : Int → Int → String → Bool) : Nat :=
  listMax (eligible_users.map (totalAssignments dates call_types sol))

/-- Value of the `min_assignments` variable in a feasible solution
(`AddMinEquality` over the per-user totals). -/
def minAssignments (eligible_users : List Int) (dates : List Int) (call_types : List String)
    (sol : Int → Int → String → Bool) : Nat :=
  listMin (eligible_users.map (totalAssignments dates call_types sol))

/-- Value of the minimized `fairness_penalty` variable
(`fairness_penalty == max_assignments - min_assignments`). -/
def fairnessPenalty (eligible_users : List Int) (dates : List Int) (call_types : List String)
    (sol : Int → Int → String → Bool) : Nat :=
  maxAssignments eligible_users dates call_types sol -
    minAssignments eligible_users dates call_types sol

/-- One extracted assignment row (lines 197–204; the `user_name`,
`call_type_id` and `weekday` fields are derived from these three). -/
structure Assignment where
  date : Int
  user_id : Int
  call_type : String
deriving DecidableEq, Repr

/-- Solution extraction (lines 190–205): triple loop over users, dates,
call types, appending a row for every decision variable solved to 1. -/
def extractAssignments (eligible_users : List Int) (dates : List Int)
    (call_types : List String) (sol : Int → Int → String → Bool) : List Assignment :=
  eligible_users.flatMap fun u =>
    dates.flatMap fun d =>
      call_types.flatMap fun c =>
        if sol u d c then [{ date := d, user_id := u, call_type := c }] else []

/-- The `statistics` dict of a successful run (lines 207–215).
`assignments_per_user` is the extraction-time counter; `fairness_score`
is the solved `fairness_penalty` when the status is `OPTIMAL`, else
`None`. -/
structure ScheduleStatistics where
  total_assignments : Nat
  assignments_per_user : Int → Nat
  date_range_days : Nat
  call_types_scheduled : List String
  fairness_score : Option Nat
  solve_status : String

/-- Builds the `statistics` dict from a feasible solution. -/
def buildStatistics (eligible_users : List Int) (dates : List Int) (call_types : List String)
    (sol : Int → Int → String → Bool) (optimal : Bool) : ScheduleStatistics :=
  { total_assignments := (extractAssignments eligible_users dates call_types sol).length
    assignments_per_user := fun u =>
      (extractAssignments eligible_users dates call_types sol).countP fun a => a.user_id == u
    date_range_days := dates.length
    call_types_scheduled := call_types
    fairness_score :=
      if optimal then some (fairnessPenalty eligible_users dates call_types sol) else none
    solve_status := if optimal then "OPTIMAL" else "FEASIBLE" }

/-- `ScheduleResult` dataclass (statistics of the failure paths is the
empty dict, modelled as `none`). -/
structure ScheduleResult where
  success : Bool
  assignments : List Assignment
  statistics : Option ScheduleStatistics
  violations : List String
  solve_time_seconds : ℚ

/-- The reachable control flow of `optimize_schedule` (lines 60–78),
with the eligible-user list (the result of `_get_eligible_users`, an
external query) as a parameter.  With no eligible users it returns the
unsuccessful result of lines 72–73.  Otherwise line 78 evaluates
`self.constraint_validator.load_user_availabilities(...)`, but
`ConstraintValidator` (constraint_validator.py, lines 66–186) defines no
attribute `load_user_availabilities` — the class only defines
`validate_user_availability`, `validate_call_frequency`,
`_count_consecutive_calls` and `validate_workload_fairness`, and the
loader method is `AvailabilityLoader.load_user_availability` — so Python
raises `AttributeError` before the model is ever built, modelled as
`Except.error`. -/
def optimize_schedule (eligible_users : List Int) : Except String ScheduleResult :=
  if eligible_users.isEmpty then
    .ok { success := false, assignments := [], statistics := none,
          violations := ["No eligible users found"], solve_time_seconds := 0 }
  else
    .error "AttributeError: ConstraintValidator object has no attribute load_user_availabilities"

/-! ## Derived notions and concrete instances used by the theorems -/

/-- Number of assignments of user `u` in a returned assignment list
(the extraction-time `assignment_stats` counter). -/
def assignmentCountFromList (l : List Assignment) (u : Int) : Nat :=
  l.countP (fun a => a.user_id == u)

/-- The max − min spread of per-person assignment counts computed from
a returned assignment list. -/
def spreadFromList (l : List Assignment) (eligible_users : List Int) : Nat :=
  listMax (eligible_users.map (assignmentCountFromList l)) -
    listMin (eligible_users.map (assignmentCountFromList l))

/-- Two availability maps that agree on everything the optimizer's model
reads (`vacation_dates`, `no_call_dates`, `fte`) but may differ on
`part_time_dates`. -/
def availAgreeExceptPartTime (a₁ a₂ : Int → Option UserAvailability) : Prop :=
  ∀ u, match a₁ u, a₂ u with
    | none, none => True
    | some r₁, some r₂ =>
      r₁.vacation_dates = r₂.vacation_dates ∧ r₁.no_call_dates = r₂.no_call_dates ∧
        r₁.fte = r₂.fte
    | _, _ => False

/-- A candidate solution for the rest-gap boundary instance: three
weekdays 4, 5, 6 (Mon 1970-01-05 … Wed 1970-01-07), two users, one call
type; user 1 covers the first day, user 2 the last two (consecutive)
days. -/
def solGapTail : Int → Int → String → Bool := fun u d c =>
  c == "CMCG" && ((u == 1 && d == 4) || (u == 2 && (d == 5 || d == 6)))

/-- A candidate solution for the Friday-pairing instance: Friday–Sunday
1970-01-02 … 1970-01-04 (dates 1, 2, 3), users 1 and 2, call types CMCG
and CMCO; user 1 takes CMCG every day and user 2 takes CMCO every day,
so user 1's Friday CMCG is never paired with a Sunday CMCO. -/
def solFridayPairing : Int → Int → String → Bool := fun u _ c =>
  (u == 1 && c == "CMCG") || (u == 2 && c == "CMCO")

/-- Availability map with a single full-time record for user 1. -/
def availSingleFullTime : Int → Option UserAvailability := fun u =>
  if u == 1 then
    some { user_id := 1, user_name := "A B", user_group := "Full Time", fte := 1 }
  else none

/-- Availability map for user 1 with a part-time (reduced-capacity)
marking on date 4 and nothing else. -/
def availWithPartTime : Int → Option UserAvailability := fun u =>
  if u == 1 then
    some { user_id := 1, user_name := "A B", user_group := "Part Time", fte := 1,
           part_time_dates := [4] }
  else none

/-- The same map with the part-time marking removed. -/
def availWithoutPartTime : Int → Option UserAvailability := fun u =>
  if u == 1 then
    some { user_id := 1, user_name := "A B", user_group := "Part Time", fte := 1,
           part_time_dates := [] }
  else none

/-! ## Helper lemmas -/

lemma fridayRuleLookup_mem (ct wct : String) (h : fridayRuleLookup ct = some wct) :
    wct ∈ friday_to_weekend_rules.map (fun p => p.2) := by
  unfold fridayRuleLookup at h
  cases hf : friday_to_weekend_rules.find? (fun p => p.1 == ct) with
  | none => rw [hf] at h; cases h
  | some p =>
    rw [hf] at h
    have hp : p.2 = wct := by simpa using h
    exact hp ▸ List.mem_map_of_mem _ (List.mem_of_find?_eq_some hf)

lemma friday_paired_no_dayname (wct : String)
    (h : wct ∈ friday_to_weekend_rules.map (fun p => p.2)) :
    pyInLower "saturday" wct = false ∧ pyInLower "sunday" wct = false := by
  fin_cases h <;> exact ⟨rfl, rfl⟩

lemma get_weekend_assignment_friday (ct : String) :
    get_weekend_assignment ct "friday" = fridayRuleLookup ct := rfl

/-! ## Claim theorems -/

/-- C1: the claim says Friday weekend pairings are enforced as hard
implications in the constraint model.  In fact the Friday branch of
`_add_weekend_sandwich_constraints` adds *no* constraint for any input:
the paired value from the rule table is a duty code, whose lower-cased
name never contains the tested substrings `'saturday'` / `'sunday'`, so
every candidate solution — including one where user 1 holds CMCG on a
Friday without the required CMCO on the implied Sunday — satisfies the
Friday component of the model.  (At runtime the situation is worse
still: the code calls the nonexistent method
`WeekendRulesEngine.get_weekend_assignment` and raises
`AttributeError`.) -/
theorem c1_friday_pairing_never_constrained :
    (∀ (users dates : List Int) (cts : List String) (sol : Int → Int → String → Bool),
      fridayWeekendOk users dates cts sol = true) ∧
    modelSat [1, 2] [1, 2, 3] ["CMCG", "CMCO"] (fun _ => none) 0 solFridayPairing = true ∧
    solFridayPairing 1 1 "CMCG" = true ∧ pyWeekday 1 = 4 ∧
    solFridayPairing 1 3 "CMCO" = false := by
  refine ⟨?_, by decide, rfl, rfl, rfl⟩
  intro users dates cts sol
  unfold fridayWeekendOk
  rw [List.all_eq_true]
  intro i _
  cases hc : (pyWeekday (dates.getD i 0) == 4 && decide (i + 2 < dates.length)) with
  | false => simp only [hc]; rfl
  | true =>
    simp only [hc, if_true]
    rw [List.all_eq_true]
    intro u _
    rw [List.all_eq_true]
    intro ct _
    rw [get_weekend_assignment_friday]
    cases h : fridayRuleLookup ct with
    | none => rfl
    | some wct =>
      have hw := friday_paired_no_dayname wct (fridayRuleLookup_mem ct wct h)
      simp [hw.1, hw.2]

/-- C2: the claim says the rest-gap implications are applied from every
anchor date, including those among the final `minGap` dates, so that any
two assigned dates differ by more than the gap.  The code's anchor loop
`enumerate(dates[:-min_days_between_calls])` skips the tail anchors: on
the three-weekday range 1970-01-05 … 1970-01-07 with gap 2, the model
accepts (and coverage in fact forces) a solution in which user 2 is
assigned on the last two *consecutive* dates 5 and 6. -/
theorem c2_rest_gap_tail_unenforced :
    modelSat [1, 2] (generateDateRange 4 6) ["CMCG"] (fun _ => none) 2 solGapTail = true ∧
    solGapTail 2 5 "CMCG" = true ∧ solGapTail 2 6 "CMCG" = true := by
  refine ⟨?_, rfl, rfl⟩
  rw [show generateDateRange 4 6 = [4, 5, 6] from by simp [generateDateRange]]
  decide

/-- C6: with no eligible users `optimize_schedule` returns the
unsuccessful result with the explanatory violation of lines 72–73, but
with any non-empty eligible-user list it *raises* (`AttributeError` on
the nonexistent `ConstraintValidator.load_user_availabilities`) instead
of returning a result, contradicting the claim that it never raises. -/
theorem c6_empty_ok_nonempty_raises :
    optimize_schedule [] = .ok ({ success := false
                                  assignments := []
                                  statistics := none
                                  violations := ["No eligible users found"]
                                  solve_time_seconds := 0 } : ScheduleResult) ∧
    optimize_schedule [7] =
      .error "AttributeError: ConstraintValidator object has no attribute load_user_availabilities" :=
  ⟨rfl, rfl⟩

/-- C7 (counterexample): with one eligible roster user, a failing
absence query (`get_assignments_by_schedule`) propagates out of
`load_user_availability` as an exception, instead of yielding the
degraded record with empty date sets the claim promises for the
all-lookups-failed case. -/
theorem c7_absence_lookup_failure_propagates :
    load_user_availability
      (.ok [{ userid := 1, coregroup := "Full Time", fname := "A", lname := "B" }])
      (fun _ => .error ()) (fun _ => .error ()) = .error () := rfl

/-- C8 (counterexample): a Friday CMCG assignment whose implied paired
date (two days later) lies outside the scheduled range — the input
contains only that one Friday — is *still* reported as a violation by
`validate_sandwich_compliance`; the function has no notion of the
scheduling horizon and never skips silently. -/
theorem c8_out_of_horizon_pair_reported :
    validate_sandwich_compliance [{ user_id := 1, date := 1, call_type := "CMCG" }] =
      ["User 1: Friday CMCG on 1 requires CMCO on 3, but no assignment found"] := by decide

lemma list_all_congr {α} (l : List α) (f g : α → Bool) (h : ∀ x ∈ l, f x = g x) :
    l.all f = l.all g := by
  induction l with
  | nil => rfl
  | cons a t ih =>
    simp only [List.all_cons, h a (by simp), ih (fun x hx => h x (by simp [hx]))]

lemma availabilityOk_agree (users dates : List Int) (cts : List String)
    (a₁ a₂ : Int → Option UserAvailability) (sol : Int → Int → String → Bool)
    (h : availAgreeExceptPartTime a₁ a₂) :
    availabilityOk users dates cts a₁ sol = availabilityOk users dates cts a₂ sol := by
  unfold availabilityOk
  apply list_all_congr
  intro u _
  have hu := h u
  revert hu
  cases a₁ u <;> cases a₂ u
  · intro _; rfl
  · intro hu; cases hu
  · intro hu; cases hu
  · rename_i r₁ r₂
    intro hu
    obtain ⟨hv, hn, hf⟩ := hu
    simp only [hv, hn]

lemma fteOk_agree (users dates : List Int) (cts : List String)
    (a₁ a₂ : Int → Option UserAvailability) (sol : Int → Int → String → Bool)
    (h : availAgreeExceptPartTime a₁ a₂) :
    fteOk users dates cts a₁ sol = fteOk users dates cts a₂ sol := by
  unfold fteOk
  apply list_all_congr
  intro u _
  have hu := h u
  revert hu
  cases a₁ u <;> cases a₂ u
  · intro _; rfl
  · intro hu; cases hu
  · intro hu; cases hu
  · rename_i r₁ r₂
    intro hu
    obtain ⟨hv, hn, hf⟩ := hu
    simp only [hf]

/-- C9: `UserAvailability.is_available` is false exactly on vacation and
no-call dates, and the optimizer's constraint model is invariant under
changing `part_time_dates` (two availability maps agreeing on
`vacation_dates`, `no_call_dates` and `fte` generate the same model), so
a reduced-capacity date never blocks assignment. -/
theorem c9_part_time_dates_no_effect :
    (∀ (ua : UserAvailability) (d : Int),
      ua.is_available d = false ↔ (d ∈ ua.vacation_dates ∨ d ∈ ua.no_call_dates)) ∧
    (∀ (users dates : List Int) (cts : List String) (g : Nat)
      (sol : Int → Int → String → Bool) (a₁ a₂ : Int → Option UserAvailability),
      availAgreeExceptPartTime a₁ a₂ →
      modelSat users dates cts a₁ g sol = modelSat users dates cts a₂ g sol) := by
  constructor
  · intro ua d
    simp [UserAvailability.is_available]
    tauto
  · intro users dates cts g sol a₁ a₂ h
    unfold modelSat
    rw [availabilityOk_agree users dates cts a₁ a₂ sol h,
        fteOk_agree users dates cts a₁ a₂ sol h]

/-- C9 witness: adding the part-time marking `[4]` to user 1's record
leaves the model unchanged on a concrete instance. -/
theorem c9_part_time_dates_no_effect_witness :
    modelSat [1] [4] ["CMCG"] availWithPartTime 2 (fun _ _ _ => true) =
      modelSat [1] [4] ["CMCG"] availWithoutPartTime 2 (fun _ _ _ => true) :=
  c9_part_time_dates_no_effect.2 [1] [4] ["CMCG"] 2 (fun _ _ _ => true)
    availWithPartTime availWithoutPartTime
    (by
      intro u
      by_cases h : u == 1 <;>
        simp [availAgreeExceptPartTime, availWithPartTime, availWithoutPartTime, h])
lemma countP_flatMap {α β} (l : List α) (f : α → List β) (p : β → Bool) :
    (l.flatMap f).countP p = (l.map (fun x => (f x).countP p)).sum := by
  induction l with
  | nil => rfl
  | cons a t ih => simp [List.flatMap_cons, List.countP_append, ih]

lemma length_flatMap' {α β} (l : List α) (f : α → List β) :
    (l.flatMap f).length = (l.map (fun x => (f x).length)).sum := by
  induction l with
  | nil => rfl
  | cons a t ih => simp [List.flatMap_cons, ih]

lemma countP_if_singleton {β} (b : Bool) (x : β) (p : β → Bool) :
    (if b then [x] else []).countP p = if b && p x then 1 else 0 := by
  cases b <;> cases h : p x <;> simp [List.countP_cons, h]

lemma length_if_singleton {β} (b : Bool) (x : β) :
    (if b then [x] else ([] : List β)).length = if b then 1 else 0 := by
  cases b <;> simp

lemma sum_map_eq_single {α} [DecidableEq α] (l : List α) (hnd : l.Nodup) (a : α)
    (ha : a ∈ l) (f : α → Nat) (h0 : ∀ x ∈ l, x ≠ a → f x = 0) :
    (l.map f).sum = f a := by
  induction l with
  | nil => cases ha
  | cons b t ih =>
    have hnd' := List.nodup_cons.mp hnd
    rcases List.mem_cons.mp ha with rfl | hat
    · have hz : ∀ y ∈ t.map f, y = 0 := by
        intro y hy
        obtain ⟨x, hx, rfl⟩ := List.mem_map.mp hy
        exact h0 x (List.mem_cons_of_mem _ hx) (fun he => hnd'.1 (he ▸ hx))
      simp [List.sum_eq_zero hz]
    · have hb : f b = 0 := by
        refine h0 b (List.mem_cons_self b t) (fun he => hnd'.1 (he ▸ hat))
      rw [List.map_cons, List.sum_cons, hb,
        ih hnd'.2 hat (fun x hx hxa => h0 x (List.mem_cons_of_mem _ hx) hxa)]
      omega

lemma sum_map_indicator_countP {α} (l : List α) (p : α → Bool) :
    (l.map (fun x => if p x then 1 else 0)).sum = l.countP p := by
  induction l with
  | nil => rfl
  | cons a t ih =>
    by_cases h : p a <;> simp [List.countP_cons, h, ih] <;> omega

lemma sum_map_add' {β} (l : List β) (g h : β → Nat) :
    (l.map (fun x => g x + h x)).sum = (l.map g).sum + (l.map h).sum := by
  induction l with
  | nil => rfl
  | cons a t ih => simp [ih]; omega

lemma sum_swap {α β} (l₁ : List α) (l₂ : List β) (f : α → β → Nat) :
    (l₁.map (fun a => (l₂.map (f a)).sum)).sum =
    (l₂.map (fun b => (l₁.map (fun a => f a b)).sum)).sum := by
  induction l₁ with
  | nil =>
    simp only [List.map_nil, List.sum_nil]
    rw [eq_comm]
    apply List.sum_eq_zero
    intro y hy
    obtain ⟨b, _, rfl⟩ := List.mem_map.mp hy
    rfl
  | cons a t ih =>
    simp only [List.map_cons, List.sum_cons, ih]
    rw [← sum_map_add']

lemma coverage_count (users dates : List Int) (cts : List String)
    (sol : Int → Int → String → Bool) (d : Int) (c : String)
    (h : coverageOk users dates cts sol = true) (hd : d ∈ dates) (hc : c ∈ cts) :
    users.countP (fun u => sol u d c) = 1 := by
  unfold coverageOk at h
  rw [List.all_eq_true] at h
  have h2 := h d hd
  rw [List.all_eq_true] at h2
  have h3 := h2 c hc
  simpa using h3

lemma extract_count_slot (users dates : List Int) (cts : List String)
    (sol : Int → Int → String → Bool) (d : Int) (c : String)
    (hndd : dates.Nodup) (hndc : cts.Nodup)
    (hcov : coverageOk users dates cts sol = true) (hd : d ∈ dates) (hc : c ∈ cts) :
    (extractAssignments users dates cts sol).countP
      (fun a => a.date == d && a.call_type == c) = 1 := by
  unfold extractAssignments
  rw [countP_flatMap]
  have huser : ∀ u : Int,
      ((dates.flatMap fun d' => cts.flatMap fun c' =>
        if sol u d' c' then [({date := d', user_id := u, call_type := c'} : Assignment)] else []).countP
          (fun a => a.date == d && a.call_type == c)) = if sol u d c then 1 else 0 := by
    intro u
    rw [countP_flatMap]
    have hdate : ∀ d' : Int,
        ((cts.flatMap fun c' =>
          if sol u d' c' then [({date := d', user_id := u, call_type := c'} : Assignment)] else []).countP
            (fun a => a.date == d && a.call_type == c)) =
          if d' == d then (if sol u d' c then 1 else 0) else 0 := by
      intro d'
      rw [countP_flatMap]
      by_cases hdd : d' = d
      · subst hdd
        simp only [beq_self_eq_true, if_true]
        simp only [countP_if_singleton]
        rw [sum_map_eq_single cts hndc c hc]
        · simp
        · intro x hx hxc
          simp [beq_eq_false_iff_ne.mpr hxc]
      · have hfalse : (d' == d) = false := beq_eq_false_iff_ne.mpr hdd
        simp only [hfalse, Bool.false_eq_true, if_false]
        apply List.sum_eq_zero
        intro y hy
        obtain ⟨c', _, rfl⟩ := List.mem_map.mp hy
        simp [countP_if_singleton, hfalse]
    rw [List.map_congr_left (fun d' _ => hdate d')]
    rw [sum_map_eq_single dates hndd d hd]
    · simp
    · intro x hx hxd
      simp [beq_eq_false_iff_ne.mpr hxd]
  rw [List.map_congr_left (fun u _ => huser u)]
  rw [sum_map_indicator_countP]
  exact coverage_count users dates cts sol d c hcov hd hc

lemma extract_length (users dates : List Int) (cts : List String)
    (sol : Int → Int → String → Bool)
    (hcov : coverageOk users dates cts sol = true) :
    (extractAssignments users dates cts sol).length = dates.length * cts.length := by
  unfold extractAssignments
  rw [length_flatMap']
  have huser : ∀ u : Int,
      ((dates.flatMap fun d' => cts.flatMap fun c' =>
        if sol u d' c' then [({date := d', user_id := u, call_type := c'} : Assignment)] else []).length) =
      (dates.map fun d' => (cts.map fun c' => if sol u d' c' then 1 else 0).sum).sum := by
    intro u
    rw [length_flatMap']
    refine congrArg _ (List.map_congr_left fun d' _ => ?_)
    rw [length_flatMap']
    refine congrArg _ (List.map_congr_left fun c' _ => ?_)
    exact length_if_singleton _ _
  rw [List.map_congr_left (fun u _ => huser u)]
  rw [sum_swap users dates]
  have hd : ∀ d' ∈ dates,
      (users.map fun u => ((cts.map fun c' => if sol u d' c' then 1 else 0)).sum).sum
      = cts.length := by
    intro d' hd'
    rw [sum_swap users cts]
    have hc : ∀ c' ∈ cts,
        (users.map fun u => if sol u d' c' then 1 else 0).sum = 1 := by
      intro c' hc'
      rw [sum_map_indicator_countP]
      exact coverage_count users dates cts sol d' c' hcov hd' hc'
    rw [List.map_congr_left hc]
    simp [List.map_const', List.sum_replicate]
  rw [List.map_congr_left hd]
  simp [List.map_const', List.sum_replicate, Nat.mul_comm]
lemma generateDateRange_eq (s e : Int) :
    generateDateRange s e = (List.range (e + 1 - s).toNat).map (fun i : Nat => s + (i : Int)) := by
  rw [generateDateRange]
  by_cases h : s ≤ e
  · rw [if_pos h, generateDateRange_eq (s + 1) e]
    have hn : (e + 1 - s).toNat = (e + 1 - (s + 1)).toNat + 1 := by omega
    rw [hn, List.range_succ_eq_map, List.map_cons, List.map_map]
    refine congrArg₂ _ (by simp) ?_
    apply List.map_congr_left
    intro i _
    simp only [Function.comp_apply]
    push_cast
    ring
  · rw [if_neg h]
    have hn : (e + 1 - s).toNat = 0 := by omega
    rw [hn]
    rfl
termination_by (e + 1 - s).toNat
decreasing_by omega

lemma generateDateRange_nodup (s e : Int) : (generateDateRange s e).Nodup := by
  rw [generateDateRange_eq]
  refine List.Nodup.map ?_ (List.nodup_range _)
  intro a b hab
  have h2 : (a : Int) = b := by simpa using hab
  exact_mod_cast h2

/-- C3: in any feasible solution of the constraint model over the
requested inclusive date range, extraction returns exactly one
assignment for every (date, duty type) slot — never zero, never more
than one — and hence |dates| × |call types| assignments in total. -/
theorem c3_exactly_one_assignment_per_slot
    (s e : Int) (users : List Int) (cts : List String)
    (avail : Int → Option UserAvailability) (g : Nat)
    (sol : Int → Int → String → Bool)
    (hndc : cts.Nodup)
    (hsat : modelSat users (generateDateRange s e) cts avail g sol = true) :
    (∀ d ∈ generateDateRange s e, ∀ c ∈ cts,
      (extractAssignments users (generateDateRange s e) cts sol).countP
        (fun a => a.date == d && a.call_type == c) = 1) ∧
    (extractAssignments users (generateDateRange s e) cts sol).length =
      (generateDateRange s e).length * cts.length := by
  have hcov : coverageOk users (generateDateRange s e) cts sol = true := by
    unfold modelSat at hsat
    simp only [Bool.and_eq_true] at hsat
    exact hsat.1.1.1.1.1.1
  exact ⟨fun d hd c hc =>
      extract_count_slot users _ cts sol d c (generateDateRange_nodup s e) hndc hcov hd hc,
    extract_length users _ cts sol hcov⟩

/-- C3 witness: the one-day, one-duty, one-user instance. -/
theorem c3_exactly_one_assignment_per_slot_witness :
    (∀ d ∈ generateDateRange 4 4, ∀ c ∈ ["CMCG"],
      (extractAssignments [1] (generateDateRange 4 4) ["CMCG"] (fun _ _ _ => true)).countP
        (fun a => a.date == d && a.call_type == c) = 1) ∧
    (extractAssignments [1] (generateDateRange 4 4) ["CMCG"] (fun _ _ _ => true)).length =
      (generateDateRange 4 4).length * ["CMCG"].length :=
  c3_exactly_one_assignment_per_slot 4 4 [1] ["CMCG"] (fun _ => none) 2 (fun _ _ _ => true)
    (by decide)
    (by rw [show generateDateRange 4 4 = [4] from by simp [generateDateRange]]; decide)

lemma extract_count_user (users dates : List Int) (cts : List String)
    (sol : Int → Int → String → Bool) (u : Int)
    (hnd : users.Nodup) (hu : u ∈ users) :
    (extractAssignments users dates cts sol).countP (fun a => a.user_id == u) =
      totalAssignments dates cts sol u := by
  unfold extractAssignments
  rw [countP_flatMap]
  have huser : ∀ u' : Int,
      ((dates.flatMap fun d' => cts.flatMap fun c' =>
        if sol u' d' c' then [({date := d', user_id := u', call_type := c'} : Assignment)] else []).countP
          (fun a => a.user_id == u)) =
      if u' == u then totalAssignments dates cts sol u' else 0 := by
    intro u'
    rw [countP_flatMap]
    have hdate : ∀ d' : Int,
        ((cts.flatMap fun c' =>
          if sol u' d' c' then [({date := d', user_id := u', call_type := c'} : Assignment)] else []).countP
            (fun a => a.user_id == u)) =
        if u' == u then cts.countP (fun c' => sol u' d' c') else 0 := by
      intro d'
      rw [countP_flatMap]
      cases huu : (u' == u) with
      | true =>
        simp only [countP_if_singleton, huu, Bool.and_true, if_true]
        exact sum_map_indicator_countP cts _
      | false =>
        simp only [if_false, Bool.false_eq_true]
        apply List.sum_eq_zero
        intro y hy
        obtain ⟨c', _, rfl⟩ := List.mem_map.mp hy
        simp [countP_if_singleton, huu]
    rw [List.map_congr_left (fun d' _ => hdate d')]
    cases huu : (u' == u) with
    | true => simp only [if_true]; rfl
    | false =>
      simp only [if_false, Bool.false_eq_true]
      apply List.sum_eq_zero
      intro y hy
      obtain ⟨d', _, rfl⟩ := List.mem_map.mp hy
      rfl
  rw [List.map_congr_left (fun u' _ => huser u')]
  rw [sum_map_eq_single users hnd u hu]
  · simp
  · intro x hx hxu
    simp [beq_eq_false_iff_ne.mpr hxu]

/-- C4: the minimized objective is exactly the max − min spread of
per-person totals, and on an OPTIMAL solve the reported
`fairness_score` statistic equals the spread of the per-person
assignment counts computed from the returned assignment list (and is
`None` when the status is merely FEASIBLE). -/
theorem c4_objective_is_spread
    (users dates : List Int) (cts : List String)
    (avail : Int → Option UserAvailability) (g : Nat)
    (sol : Int → Int → String → Bool)
    (hnd : users.Nodup)
    (_hsat : modelSat users dates cts avail g sol = true) :
    fairnessPenalty users dates cts sol =
      spreadFromList (extractAssignments users dates cts sol) users ∧
    (buildStatistics users dates cts sol true).fairness_score =
      some (spreadFromList (extractAssignments users dates cts sol) users) ∧
    (buildStatistics users dates cts sol false).fairness_score = none := by
  have hmap : users.map (assignmentCountFromList (extractAssignments users dates cts sol)) =
      users.map (totalAssignments dates cts sol) :=
    List.map_congr_left (fun u hu => extract_count_user users dates cts sol u hnd hu)
  have h1 : fairnessPenalty users dates cts sol =
      spreadFromList (extractAssignments users dates cts sol) users := by
    unfold fairnessPenalty spreadFromList maxAssignments minAssignments assignmentCountFromList
    rw [show users.map (fun u => (extractAssignments users dates cts sol).countP
      (fun a => a.user_id == u)) = users.map (totalAssignments dates cts sol) from hmap]
  exact ⟨h1, by simp [buildStatistics, h1], rfl⟩

/-- C4 witness: concrete two-day instance with one user. -/
theorem c4_objective_is_spread_witness :
    fairnessPenalty [1] [4, 5] ["CMCG"] (fun _ _ _ => true) =
      spreadFromList (extractAssignments [1] [4, 5] ["CMCG"] (fun _ _ _ => true)) [1] ∧
    (buildStatistics [1] [4, 5] ["CMCG"] (fun _ _ _ => true) true).fairness_score =
      some (spreadFromList (extractAssignments [1] [4, 5] ["CMCG"] (fun _ _ _ => true)) [1]) ∧
    (buildStatistics [1] [4, 5] ["CMCG"] (fun _ _ _ => true) false).fairness_score = none :=
  c4_objective_is_spread [1] [4, 5] ["CMCG"] (fun _ => none) 0 (fun _ _ _ => true)
    (by decide) (by decide)

/-- C5: in any feasible solution, an eligible person with an
availability record receives at most
`int(avg_calls_per_user * fte * 1.2)` assignments in the returned list,
and the FTE capacity constraints impose no minimum: the empty
assignment satisfies them whenever all FTE values are non-negative. -/
theorem c5_fte_cap
    (users dates : List Int) (cts : List String)
    (avail : Int → Option UserAvailability) (g : Nat)
    (sol : Int → Int → String → Bool) (u : Int) (r : UserAvailability)
    (hnd : users.Nodup) (hu : u ∈ users)
    (hsat : modelSat users dates cts avail g sol = true)
    (hr : avail u = some r) :
    (((extractAssignments users dates cts sol).countP (fun a => a.user_id == u) : Int) ≤
      maxCallsForUser users dates cts r.fte) ∧
    (∀ (users' dates' : List Int) (cts' : List String)
      (avail' : Int → Option UserAvailability),
      (∀ u' r', avail' u' = some r' → 0 ≤ r'.fte) →
      fteOk users' dates' cts' avail' (fun _ _ _ => false) = true) := by
  constructor
  · rw [extract_count_user users dates cts sol u hnd hu]
    have hfte : fteOk users dates cts avail sol = true := by
      unfold modelSat at hsat
      simp only [Bool.and_eq_true] at hsat
      exact hsat.2
    unfold fteOk at hfte
    rw [List.all_eq_true] at hfte
    have h2 := hfte u hu
    rw [hr] at h2
    simpa using h2
  · intro users' dates' cts' avail' hpos
    unfold fteOk
    rw [List.all_eq_true]
    intro u' hu'
    cases hx : avail' u' with
    | none => simp [hx]
    | some r' =>
      simp only [hx]
      have htot : totalAssignments dates' cts' (fun _ _ _ => false) u' = 0 := by
        unfold totalAssignments
        apply List.sum_eq_zero
        intro y hy
        obtain ⟨d, _, rfl⟩ := List.mem_map.mp hy
        simp
      have hcap : (0 : Int) ≤ maxCallsForUser users' dates' cts' r'.fte := by
        unfold maxCallsForUser
        apply Int.floor_nonneg.mpr
        have hfp := hpos u' r' hx
        have h1 : (0:ℚ) ≤ (cts'.length : ℚ) * (dates'.length : ℚ) / (users'.length : ℚ) :=
          div_nonneg (mul_nonneg (Nat.cast_nonneg _) (Nat.cast_nonneg _)) (Nat.cast_nonneg _)
        exact mul_nonneg (mul_nonneg h1 hfp) (by norm_num)
      rw [htot]
      simpa using hcap

/-- C5 witness: one user, one date, one duty, full-time record; the cap
evaluates to 1 and the single assignment meets it. -/
theorem c5_fte_cap_witness :
    (((extractAssignments [1] [4] ["CMCG"] (fun _ _ _ => true)).countP
        (fun a => a.user_id == 1) : Int) ≤
      maxCallsForUser [1] [4] ["CMCG"]
        ({ user_id := 1, user_name := "A B", user_group := "Full Time",
           fte := 1 } : UserAvailability).fte) ∧
    (∀ (users' dates' : List Int) (cts' : List String)
      (avail' : Int → Option UserAvailability),
      (∀ u' r', avail' u' = some r' → 0 ≤ r'.fte) →
      fteOk users' dates' cts' avail' (fun _ _ _ => false) = true) :=
  c5_fte_cap [1] [4] ["CMCG"] availSingleFullTime 2 (fun _ _ _ => true) 1
    ({ user_id := 1, user_name := "A B", user_group := "Full Time",
       fte := 1 } : UserAvailability)
    (by decide) (by decide)
    (by
      simp [modelSat, coverageOk, exclusivityOk, availabilityOk, minGapOk, fridayWeekendOk,
        saturdayWeekendOk, fteOk, availSingleFullTime, totalAssignments, maxCallsForUser,
        pyWeekday, get_weekend_assignment, fridayRuleLookup, friday_to_weekend_rules,
        weekendConsecutiveLookup]
      norm_num [Int.le_floor])
    rfl
lemma pairAdd_fst (st : List WeekendAssignment × (Int → List WeekendAssignment))
    (uid target : Int) (ct : String) (input : List WeekendAssignment) (unav : List Int)
    (h1 : ∃ extra, st.1 = input ++ extra ∧ ∀ x ∈ extra,
      x.is_required_pair = true ∧ unav.contains x.user_id = false ∧
      ∀ b ∈ input, ¬(b.user_id = x.user_id ∧ b.date = x.date))
    (h2 : ∀ b ∈ input, b ∈ st.2 b.date)
    (hu : unav.contains uid = false) :
    ∃ extra, (pairAdd st uid target ct).1 = input ++ extra ∧ ∀ x ∈ extra,
      x.is_required_pair = true ∧ unav.contains x.user_id = false ∧
      ∀ b ∈ input, ¬(b.user_id = x.user_id ∧ b.date = x.date) := by
  unfold pairAdd
  by_cases hf : ((st.2 target).any (fun w => w.user_id == uid)) = true
  · rw [if_pos hf]; exact h1
  · rw [if_neg hf]
    obtain ⟨extra, he, hc⟩ := h1
    refine ⟨extra ++ [{ user_id := uid
                        date := target
                        call_type := ct
                        is_required_pair := true }], by rw [he, List.append_assoc], ?_⟩
    intro x hx
    rcases List.mem_append.mp hx with hx | hx
    · exact hc x hx
    · have hxe : x = { user_id := uid
                       date := target
                       call_type := ct
                       is_required_pair := true } := by simpa using hx
      subst hxe
      refine ⟨rfl, hu, ?_⟩
      intro b hb hbad
      obtain ⟨hbu, hbd⟩ := hbad
      have hbm : b ∈ st.2 target := by
        have hm := h2 b hb
        rw [hbd] at hm
        exact hm
      exact hf (List.any_eq_true.mpr ⟨b, hbm, by simp [hbu]⟩)

lemma pairAdd_snd (st : List WeekendAssignment × (Int → List WeekendAssignment))
    (uid target : Int) (ct : String) (input : List WeekendAssignment)
    (h2 : ∀ b ∈ input, b ∈ st.2 b.date) :
    ∀ b ∈ input, b ∈ (pairAdd st uid target ct).2 b.date := by
  intro b hb
  unfold pairAdd
  by_cases hf : ((st.2 target).any (fun w => w.user_id == uid)) = true
  · rw [if_pos hf]; exact h2 b hb
  · rw [if_neg hf]
    simp only []
    split
    · exact List.mem_append_left _ (h2 b hb)
    · exact h2 b hb

lemma fridayStep_pres (unav : List Int) (input : List WeekendAssignment)
    (st : List WeekendAssignment × (Int → List WeekendAssignment)) (a : WeekendAssignment)
    (h1 : ∃ extra, st.1 = input ++ extra ∧ ∀ x ∈ extra,
      x.is_required_pair = true ∧ unav.contains x.user_id = false ∧
      ∀ b ∈ input, ¬(b.user_id = x.user_id ∧ b.date = x.date))
    (h2 : ∀ b ∈ input, b ∈ st.2 b.date) :
    (∃ extra, (fridayStep unav st a).1 = input ++ extra ∧ ∀ x ∈ extra,
      x.is_required_pair = true ∧ unav.contains x.user_id = false ∧
      ∀ b ∈ input, ¬(b.user_id = x.user_id ∧ b.date = x.date)) ∧
    (∀ b ∈ input, b ∈ (fridayStep unav st a).2 b.date) := by
  unfold fridayStep
  by_cases hcu : (unav.contains a.user_id) = true
  · rw [if_pos hcu]; exact ⟨h1, h2⟩
  · have hcu' : unav.contains a.user_id = false := by simpa using hcu
    rw [if_neg hcu]
    by_cases hw : (pyWeekday a.date == 4) = true
    · rw [if_pos hw]
      cases hp : get_friday_pairing a.call_type with
      | none => exact ⟨h1, h2⟩
      | some p =>
        obtain ⟨wd, wct⟩ := p
        exact ⟨pairAdd_fst st a.user_id _ wct input unav h1 h2 hcu',
          pairAdd_snd st a.user_id _ wct input h2⟩
    · rw [if_neg hw]; exact ⟨h1, h2⟩

lemma fridayFold (unav : List Int) (input : List WeekendAssignment) :
    ∀ (todo : List WeekendAssignment)
      (st : List WeekendAssignment × (Int → List WeekendAssignment)),
      (∃ extra, st.1 = input ++ extra ∧ ∀ x ∈ extra,
        x.is_required_pair = true ∧ unav.contains x.user_id = false ∧
        ∀ b ∈ input, ¬(b.user_id = x.user_id ∧ b.date = x.date)) →
      (∀ b ∈ input, b ∈ st.2 b.date) →
      (∃ extra, (todo.foldl (fridayStep unav) st).1 = input ++ extra ∧ ∀ x ∈ extra,
        x.is_required_pair = true ∧ unav.contains x.user_id = false ∧
        ∀ b ∈ input, ¬(b.user_id = x.user_id ∧ b.date = x.date)) ∧
      (∀ b ∈ input, b ∈ (todo.foldl (fridayStep unav) st).2 b.date) := by
  intro todo
  induction todo with
  | nil => intro st h1 h2; exact ⟨h1, h2⟩
  | cons a rest ih =>
    intro st h1 h2
    rw [List.foldl_cons]
    have hstep := fridayStep_pres unav input st a h1 h2
    exact ih _ hstep.1 hstep.2

lemma saturdayStep_pres (unav : List Int) (input : List WeekendAssignment)
    (byDate : Int → List WeekendAssignment) (upd : List WeekendAssignment)
    (a : WeekendAssignment)
    (h1 : ∃ extra, upd = input ++ extra ∧ ∀ x ∈ extra,
      x.is_required_pair = true ∧ unav.contains x.user_id = false ∧
      ∀ b ∈ input, ¬(b.user_id = x.user_id ∧ b.date = x.date))
    (h2 : ∀ b ∈ input, b ∈ byDate b.date) :
    ∃ extra, saturdayStep unav byDate upd a = input ++ extra ∧ ∀ x ∈ extra,
      x.is_required_pair = true ∧ unav.contains x.user_id = false ∧
      ∀ b ∈ input, ¬(b.user_id = x.user_id ∧ b.date = x.date) := by
  unfold saturdayStep
  by_cases hcu : (unav.contains a.user_id) = true
  · rw [if_pos hcu]; exact h1
  · have hcu' : unav.contains a.user_id = false := by simpa using hcu
    rw [if_neg hcu]
    by_cases hw : (pyWeekday a.date == 5) = true
    · rw [if_pos hw]
      cases hpc : get_weekend_consecutive_pairing a.call_type with
      | none => exact h1
      | some sct =>
        dsimp only
        by_cases hf : ((byDate (a.date + 1)).any (fun w => w.user_id == a.user_id)) = true
        · rw [if_pos hf]; exact h1
        · rw [if_neg hf]
          obtain ⟨extra, he, hc⟩ := h1
          refine ⟨extra ++ [{ user_id := a.user_id
                              date := a.date + 1
                              call_type := sct
                              is_required_pair := true }], by rw [he, List.append_assoc], ?_⟩
          intro x hx
          rcases List.mem_append.mp hx with hx | hx
          · exact hc x hx
          · have hxe : x = { user_id := a.user_id
                             date := a.date + 1
                             call_type := sct
                             is_required_pair := true } := by simpa using hx
            subst hxe
            refine ⟨rfl, hcu', ?_⟩
            intro b hb hbad
            obtain ⟨hbu, hbd⟩ := hbad
            have hbm : b ∈ byDate (a.date + 1) := by
              have hm := h2 b hb
              rw [hbd] at hm
              exact hm
            exact hf (List.any_eq_true.mpr ⟨b, hbm, by simp [hbu]⟩)
    · rw [if_neg hw]; exact h1

lemma saturdayFold (unav : List Int) (input : List WeekendAssignment)
    (byDate : Int → List WeekendAssignment)
    (h2 : ∀ b ∈ input, b ∈ byDate b.date) :
    ∀ (todo upd : List WeekendAssignment),
      (∃ extra, upd = input ++ extra ∧ ∀ x ∈ extra,
        x.is_required_pair = true ∧ unav.contains x.user_id = false ∧
        ∀ b ∈ input, ¬(b.user_id = x.user_id ∧ b.date = x.date)) →
      ∃ extra, todo.foldl (saturdayStep unav byDate) upd = input ++ extra ∧ ∀ x ∈ extra,
        x.is_required_pair = true ∧ unav.contains x.user_id = false ∧
        ∀ b ∈ input, ¬(b.user_id = x.user_id ∧ b.date = x.date) := by
  intro todo
  induction todo with
  | nil => intro upd h1; exact h1
  | cons a rest ih =>
    intro upd h1
    rw [List.foldl_cons]
    exact ih _ (saturdayStep_pres unav input byDate upd a h1 h2)

/-- C10: `apply_sandwich_rules` never removes or modifies an input
assignment (the output is the input followed by the added pairs); every
added assignment is flagged `is_required_pair`, belongs to an available
user, and targets a (user, date) for which the input holds no
assignment. -/
theorem c10_apply_sandwich_rules_frame
    (assignments : List WeekendAssignment) (unavailable_users : List Int) :
    ∃ added, apply_sandwich_rules assignments unavailable_users = assignments ++ added ∧
      ∀ x ∈ added, x.is_required_pair = true ∧
        unavailable_users.contains x.user_id = false ∧
        ∀ b ∈ assignments, ¬(b.user_id = x.user_id ∧ b.date = x.date) := by
  unfold apply_sandwich_rules
  have hinit1 : ∃ extra,
      (assignments, groupByDate assignments).1 = assignments ++ extra ∧ ∀ x ∈ extra,
        x.is_required_pair = true ∧ unavailable_users.contains x.user_id = false ∧
        ∀ b ∈ assignments, ¬(b.user_id = x.user_id ∧ b.date = x.date) :=
    ⟨[], by simp, by simp⟩
  have hinit2 : ∀ b ∈ assignments, b ∈ (assignments, groupByDate assignments).2 b.date := by
    intro b hb
    exact List.mem_filter.mpr ⟨hb, by simp⟩
  have hfr := fridayFold unavailable_users assignments assignments _ hinit1 hinit2
  exact saturdayFold unavailable_users assignments _ hfr.2 assignments _ hfr.1
lemma pyKeys_mem (l : List Int) (x : Int) : x ∈ pyKeys l ↔ x ∈ l := by
  induction l with
  | nil => simp [pyKeys]
  | cons k rest ih =>
    simp only [pyKeys, List.mem_cons, List.mem_filter, bne_iff_ne, ne_eq, ih]
    by_cases h : x = k <;> simp [h]

lemma insertSorted_mem (x y : Int) (l : List Int) :
    y ∈ insertSorted x l ↔ y = x ∨ y ∈ l := by
  induction l with
  | nil => simp [insertSorted]
  | cons z t ih =>
    unfold insertSorted
    split
    · simp [List.mem_cons]
    · simp only [List.mem_cons, ih]
      tauto

lemma sortInts_mem (l : List Int) (y : Int) : y ∈ sortInts l ↔ y ∈ l := by
  induction l with
  | nil => simp [sortInts]
  | cons a t ih =>
    show y ∈ insertSorted a (sortInts t) ↔ _
    rw [insertSorted_mem, ih]
    simp

lemma append_ne_nil_iff {α} (A B : List α) : A ++ B ≠ [] ↔ (A ≠ [] ∨ B ≠ []) := by
  cases A <;> cases B <;> simp

lemma flatMap_ne_nil_iff {α β} (l : List α) (f : α → List β) :
    l.flatMap f ≠ [] ↔ ∃ x ∈ l, f x ≠ [] := by
  induction l with
  | nil => simp
  | cons a t ih =>
    rw [List.flatMap_cons, append_ne_nil_iff, ih]
    simp

lemma checkDate_ne_nil_iff (u : Int) (m : Int → Option String) (d : Int) :
    checkDate u m d ≠ [] ↔
      ∃ ct, m d = some ct ∧
        ((pyWeekday d = 4 ∧ ∃ p, get_friday_pairing ct = some p ∧
           m (d + (if p.1 == "saturday" then 1 else 2)) ≠ some p.2) ∨
         (pyWeekday d = 5 ∧ ∃ e, get_weekend_consecutive_pairing ct = some e ∧
           m (d + 1) ≠ some e)) := by
  unfold checkDate
  cases hm : m d with
  | none => simp
  | some ct =>
    rw [append_ne_nil_iff]
    cases hw4 : (pyWeekday d == 4) with
    | false =>
      have hw4' : pyWeekday d ≠ 4 := by simpa using hw4
      cases hw5 : (pyWeekday d == 5) with
      | false =>
        have hw5' : pyWeekday d ≠ 5 := by simpa using hw5
        apply iff_of_false
        · rintro (hA | hB)
          · exact hA (by simp [hw4])
          · exact hB (by simp [hw5])
        · rintro ⟨ct', hct, (⟨h4, _⟩ | ⟨h5, _⟩)⟩
          · exact hw4' h4
          · exact hw5' h5
      | true =>
        have hw5' : pyWeekday d = 5 := by simpa using hw5
        cases hpc : get_weekend_consecutive_pairing ct with
        | none =>
          apply iff_of_false
          · rintro (hA | hB)
            · exact hA (by simp [hw4])
            · exact hB (by simp [hw5, hpc])
          · rintro ⟨ct', hct, (⟨h4, _⟩ | ⟨h5, e, he, _⟩)⟩
            · exact hw4' h4
            · obtain rfl := Option.some.inj hct
              rw [hpc] at he
              cases he
        | some e =>
          cases hms : m (d + 1) with
          | none =>
            apply iff_of_true
            · right
              simp [hw5, hpc, hms]
            · exact ⟨ct, rfl, Or.inr ⟨hw5', e, hpc, by simp⟩⟩
          | some actual =>
            cases hae : (actual == e) with
            | true =>
              have hae' : actual = e := by simpa using hae
              apply iff_of_false
              · rintro (hA | hB)
                · exact hA (by simp [hw4])
                · exact hB (by simp [hw5, hpc, hms, hae])
              · rintro ⟨ct', hct, (⟨h4, _⟩ | ⟨h5, e', he', hne⟩)⟩
                · exact hw4' h4
                · obtain rfl := Option.some.inj hct
                  rw [hpc] at he'
                  obtain rfl := Option.some.inj he'
                  exact hne (by rw [hae'])
            | false =>
              have hae' : actual ≠ e := by simpa using hae
              apply iff_of_true
              · right
                simp [hw5, hpc, hms, hae]
              · exact ⟨ct, rfl, Or.inr ⟨hw5', e, hpc, by simp [hae']⟩⟩
    | true =>
      have hw4' : pyWeekday d = 4 := by simpa using hw4
      have hw5 : (pyWeekday d == 5) = false := by simp [hw4']
      have hw5' : pyWeekday d ≠ 5 := by simp [hw4']
      cases hp : get_friday_pairing ct with
      | none =>
        apply iff_of_false
        · rintro (hA | hB)
          · exact hA (by simp [hw4, hp])
          · exact hB (by simp [hw5])
        · rintro ⟨ct', hct, (⟨h4, p, hp2, _⟩ | ⟨h5, _⟩)⟩
          · obtain rfl := Option.some.inj hct
            rw [hp] at hp2
            cases hp2
          · exact hw5' h5
      | some p =>
        obtain ⟨wd, exp⟩ := p
        cases hws : (wd == "saturday") with
        | true =>
          cases hmt : m (d + 1) with
          | none =>
            apply iff_of_true
            · left
              simp [hw4, hp, hws, hmt]
            · refine ⟨ct, rfl, Or.inl ⟨hw4', (wd, exp), hp, ?_⟩⟩
              rw [if_pos hws, hmt]
              simp
          | some actual =>
            cases hae : (actual == exp) with
            | true =>
              have hae' : actual = exp := by simpa using hae
              apply iff_of_false
              · rintro (hA | hB)
                · exact hA (by simp [hw4, hp, hws, hmt, hae])
                · exact hB (by simp [hw5])
              · rintro ⟨ct', hct, (⟨h4, p, hp2, hne⟩ | ⟨h5, _⟩)⟩
                · obtain rfl := Option.some.inj hct
                  rw [hp] at hp2
                  obtain rfl := Option.some.inj hp2
                  refine hne ?_
                  rw [if_pos hws, hmt, hae']
                · exact hw5' h5
            | false =>
              have hae' : actual ≠ exp := by simpa using hae
              apply iff_of_true
              · left
                simp [hw4, hp, hws, hmt, hae]
              · refine ⟨ct, rfl, Or.inl ⟨hw4', (wd, exp), hp, ?_⟩⟩
                rw [if_pos hws, hmt]
                simp [hae']
        | false =>
          have hwsn : ¬((wd == "saturday") = true) := by simp [hws]
          cases hmt : m (d + 2) with
          | none =>
            apply iff_of_true
            · left
              simp [hw4, hp, hws, hmt]
            · refine ⟨ct, rfl, Or.inl ⟨hw4', (wd, exp), hp, ?_⟩⟩
              rw [if_neg hwsn, hmt]
              simp
          | some actual =>
            cases hae : (actual == exp) with
            | true =>
              have hae' : actual = exp := by simpa using hae
              apply iff_of_false
              · rintro (hA | hB)
                · exact hA (by simp [hw4, hp, hws, hmt, hae])
                · exact hB (by simp [hw5])
              · rintro ⟨ct', hct, (⟨h4, p, hp2, hne⟩ | ⟨h5, _⟩)⟩
                · obtain rfl := Option.some.inj hct
                  rw [hp] at hp2
                  obtain rfl := Option.some.inj hp2
                  refine hne ?_
                  rw [if_neg hwsn, hmt, hae']
                · exact hw5' h5
            | false =>
              have hae' : actual ≠ exp := by simpa using hae
              apply iff_of_true
              · left
                simp [hw4, hp, hws, hmt, hae]
              · refine ⟨ct, rfl, Or.inl ⟨hw4', (wd, exp), hp, ?_⟩⟩
                rw [if_neg hwsn, hmt]
                simp [hae']

/-- C8 (amended): `validate_sandwich_compliance` reports a violation for
user `u` at date `d` exactly when `u` holds `d` (last assignment wins)
with a duty type whose Friday pairing (resp. Saturday consecutive
pairing) is missing or mismatched *in the supplied assignment list* —
with no regard to any scheduling horizon; and the returned list is
non-empty exactly when some held (user, date) trips that check. -/
theorem c8_violation_iff_pair_missing :
    (∀ (assignments : List WeekendAssignment) (u d : Int),
      checkDate u (userDateLookup assignments u) d ≠ [] ↔
        ∃ ct, userDateLookup assignments u d = some ct ∧
          ((pyWeekday d = 4 ∧ ∃ p, get_friday_pairing ct = some p ∧
             userDateLookup assignments u (d + (if p.1 == "saturday" then 1 else 2)) ≠ some p.2) ∨
           (pyWeekday d = 5 ∧ ∃ e, get_weekend_consecutive_pairing ct = some e ∧
             userDateLookup assignments u (d + 1) ≠ some e))) ∧
    (∀ assignments : List WeekendAssignment,
      validate_sandwich_compliance assignments ≠ [] ↔
        ∃ u d, (∃ a ∈ assignments, a.user_id = u ∧ a.date = d) ∧
          checkDate u (userDateLookup assignments u) d ≠ []) := by
  constructor
  · intro assignments u d
    exact checkDate_ne_nil_iff u (userDateLookup assignments u) d
  · intro assignments
    unfold validate_sandwich_compliance
    rw [flatMap_ne_nil_iff]
    constructor
    · rintro ⟨u, hu, hne⟩
      rw [flatMap_ne_nil_iff] at hne
      obtain ⟨d, hd, hcd⟩ := hne
      rw [sortInts_mem, pyKeys_mem] at hd
      obtain ⟨a, ha, had⟩ := List.mem_map.mp hd
      obtain ⟨hal, hau⟩ := List.mem_filter.mp ha
      exact ⟨u, d, ⟨a, hal, by simpa using hau, had⟩, hcd⟩
    · rintro ⟨u, d, ⟨a, ha, hau, had⟩, hcd⟩
      refine ⟨u, ?_, ?_⟩
      · rw [pyKeys_mem]
        exact List.mem_map.mpr ⟨a, ha, hau⟩
      · rw [flatMap_ne_nil_iff]
        refine ⟨d, ?_, hcd⟩
        rw [sortInts_mem, pyKeys_mem]
        exact List.mem_map.mpr ⟨a, List.mem_filter.mpr ⟨ha, by simp [hau]⟩, had⟩
lemma replace_keys_eq (m : List (Int × UserAvailability)) (k : Int) (v : UserAvailability) :
    ((m.map (fun p => if p.1 == k then (k, v) else p)).map (fun p => p.1)) =
      m.map (fun p => p.1) := by
  rw [List.map_map]
  apply List.map_congr_left
  intro p _
  by_cases hp : (p.1 == k) = true
  · simp only [Function.comp_apply, hp, if_true]
    exact (by simpa using hp : p.1 = k).symm
  · simp only [Function.comp_apply, hp, if_false, Bool.false_eq_true]

lemma dictInsert_mem_keys (m : List (Int × UserAvailability)) (k k' : Int)
    (v : UserAvailability) :
    k' ∈ (dictInsert m k v).map (fun p => p.1) ↔
      (k' = k ∨ k' ∈ m.map (fun p => p.1)) := by
  unfold dictInsert
  by_cases h : (m.any (fun p => p.1 == k)) = true
  · rw [if_pos h, replace_keys_eq]
    constructor
    · exact Or.inr
    · rintro (rfl | hk)
      · obtain ⟨p, hp, hpk⟩ := List.any_eq_true.mp h
        exact List.mem_map.mpr ⟨p, hp, by simpa using hpk⟩
      · exact hk
  · rw [if_neg h, List.map_append]
    simp only [List.mem_append, List.map_cons, List.map_nil, List.mem_singleton]
    tauto

lemma dictInsert_keys_nodup (m : List (Int × UserAvailability)) (k : Int)
    (v : UserAvailability) (h : (m.map (fun p => p.1)).Nodup) :
    ((dictInsert m k v).map (fun p => p.1)).Nodup := by
  unfold dictInsert
  by_cases ha : (m.any (fun p => p.1 == k)) = true
  · rw [if_pos ha, replace_keys_eq]
    exact h
  · rw [if_neg ha, List.map_append]
    refine List.Nodup.append h (List.nodup_singleton k) ?_
    intro x hx hxk
    simp only [List.map_cons, List.map_nil, List.mem_singleton] at hxk
    subst hxk
    obtain ⟨p, hp, rfl⟩ := List.mem_map.mp hx
    exact ha (List.any_eq_true.mpr ⟨p, hp, by simp⟩)

lemma dictInsert_values (m : List (Int × UserAvailability)) (k : Int)
    (v : UserAvailability) (Q : UserAvailability → Prop)
    (hm : ∀ p ∈ m, Q p.2) (hv : Q v) :
    ∀ p ∈ dictInsert m k v, Q p.2 := by
  intro p hp
  unfold dictInsert at hp
  by_cases ha : (m.any (fun q => q.1 == k)) = true
  · rw [if_pos ha] at hp
    obtain ⟨q, hq, rfl⟩ := List.mem_map.mp hp
    by_cases hqk : (q.1 == k) = true
    · simp only [hqk, if_true]
      exact hv
    · simp only [hqk, if_false, Bool.false_eq_true]
      exact hm q hq
  · rw [if_neg ha] at hp
    rcases List.mem_append.mp hp with hp | hp
    · exact hm p hp
    · rw [List.mem_singleton] at hp
      subst hp
      exact hv

lemma dictLookup_of_mem_keys (m : List (Int × UserAvailability)) (k : Int)
    (h : k ∈ m.map (fun p => p.1)) : ∃ r, dictLookup m k = some r := by
  unfold dictLookup
  obtain ⟨p, hp, rfl⟩ := List.mem_map.mp h
  cases hf : m.find? (fun q => q.1 == p.1) with
  | none => exact absurd (by simp) (List.find?_eq_none.mp hf p hp)
  | some q => exact ⟨q.2, rfl⟩

lemma dictLookup_values (m : List (Int × UserAvailability)) (k : Int)
    (r : UserAvailability) (Q : UserAvailability → Prop)
    (hQ : ∀ p ∈ m, Q p.2) (h : dictLookup m k = some r) : Q r := by
  unfold dictLookup at h
  cases hf : m.find? (fun q => q.1 == k) with
  | none => rw [hf] at h; cases h
  | some q =>
    rw [hf] at h
    obtain rfl := Option.some.inj h
    exact hQ q (List.mem_of_find?_eq_some hf)

lemma load_fold_aux (fteResp : Int → Except Unit FteResponse)
    (schedResp : Int → Except Unit (List AssignRec))
    (hone : ∀ user : RosterUser, loadOneUser fteResp schedResp user = .ok
      { user_id := user.userid
        user_name := user.fname ++ " " ++ user.lname
        user_group := user.coregroup
        fte := 1 }) :
    ∀ (us : List RosterUser) (acc : List (Int × UserAvailability)),
      (acc.map (fun p => p.1)).Nodup →
      (∀ p ∈ acc, p.2.fte = 1 ∧ p.2.vacation_dates = [] ∧ p.2.no_call_dates = [] ∧
        p.2.part_time_dates = []) →
      ∃ m, (us.foldlM (fun user_availabilities user =>
          if eligible_groups.contains user.coregroup then do
            let user_avail ← loadOneUser fteResp schedResp user
            pure (dictInsert user_availabilities user.userid user_avail)
          else pure user_availabilities) acc) = .ok m ∧
        (m.map (fun p => p.1)).Nodup ∧
        (∀ p ∈ m, p.2.fte = 1 ∧ p.2.vacation_dates = [] ∧ p.2.no_call_dates = [] ∧
          p.2.part_time_dates = []) ∧
        (∀ k ∈ acc.map (fun p => p.1), k ∈ m.map (fun p => p.1)) ∧
        (∀ user ∈ us, user.coregroup ∈ eligible_groups →
          user.userid ∈ m.map (fun p => p.1)) := by
  intro us
  induction us with
  | nil =>
    intro acc hnd hq
    exact ⟨acc, rfl, hnd, hq, fun k hk => hk, by simp⟩
  | cons user rest ih =>
    intro acc hnd hq
    rw [List.foldlM_cons]
    by_cases he : (eligible_groups.contains user.coregroup) = true
    · rw [if_pos he, hone user]
      have hstep := ih (dictInsert acc user.userid
        { user_id := user.userid
          user_name := user.fname ++ " " ++ user.lname
          user_group := user.coregroup
          fte := 1 })
        (dictInsert_keys_nodup acc user.userid _ hnd)
        (dictInsert_values acc user.userid _
          (fun v => v.fte = 1 ∧ v.vacation_dates = [] ∧ v.no_call_dates = [] ∧
            v.part_time_dates = []) hq ⟨rfl, rfl, rfl, rfl⟩)
      obtain ⟨m, hm, hnd', hq', hsub, hmem⟩ := hstep
      refine ⟨m, hm, hnd', hq', ?_, ?_⟩
      · intro k hk
        exact hsub k ((dictInsert_mem_keys acc user.userid k _).mpr (Or.inr hk))
      · intro u hu helig
        rcases List.mem_cons.mp hu with rfl | hu
        · exact hsub u.userid ((dictInsert_mem_keys acc u.userid u.userid _).mpr (Or.inl rfl))
        · exact hmem u hu helig
    · rw [if_neg he]
      have hstep := ih acc hnd hq
      obtain ⟨m, hm, hnd', hq', hsub, hmem⟩ := hstep
      refine ⟨m, hm, hnd', hq', hsub, ?_⟩
      intro u hu helig
      rcases List.mem_cons.mp hu with rfl | hu
      · exact absurd (by simpa using helig) he
      · exact hmem u hu helig

/-- C7 (amended): when the three absence queries succeed with no rows
and every FTE lookup fails, `load_user_availability` returns a mapping
whose keys are free of duplicates and which holds, for every roster user
in an eligible employment group, a degraded record with FTE = 1 and
empty vacation / no-call / part-time date sets.  (A *failing* absence
query instead propagates as an exception — see the counterexample
theorem.) -/
theorem c7_eligible_records_with_degraded_fte
    (us : List RosterUser) (fteResp : Int → Except Unit FteResponse)
    (schedResp : Int → Except Unit (List AssignRec))
    (h384 : schedResp 384 = .ok []) (h385 : schedResp 385 = .ok [])
    (h386 : schedResp 386 = .ok [])
    (hfte : ∀ uid, fteResp uid = .error ()) :
    ∃ m, load_user_availability (.ok us) fteResp schedResp = .ok m ∧
      (m.map (fun p => p.1)).Nodup ∧
      (∀ user ∈ us, user.coregroup ∈ eligible_groups →
        ∃ r, dictLookup m user.userid = some r ∧ r.fte = 1 ∧
          r.vacation_dates = [] ∧ r.no_call_dates = [] ∧ r.part_time_dates = []) := by
  have hone : ∀ user : RosterUser, loadOneUser fteResp schedResp user = .ok
      { user_id := user.userid
        user_name := user.fname ++ " " ++ user.lname
        user_group := user.coregroup
        fte := 1 } := by
    intro user
    unfold loadOneUser get_user_fte
    rw [hfte user.userid, h384, h385, h386]
    rfl
  obtain ⟨m, hm, hnd, hq, _, hmem⟩ :=
    load_fold_aux fteResp schedResp hone us [] (by simp) (by simp)
  refine ⟨m, ?_, hnd, ?_⟩
  · unfold load_user_availability
    exact hm
  · intro user hu helig
    obtain ⟨r, hr⟩ := dictLookup_of_mem_keys m user.userid (hmem user hu helig)
    have hv := dictLookup_values m user.userid r
      (fun v => v.fte = 1 ∧ v.vacation_dates = [] ∧ v.no_call_dates = [] ∧
        v.part_time_dates = []) hq hr
    exact ⟨r, hr, hv.1, hv.2.1, hv.2.2.1, hv.2.2.2⟩

/-- C7 witness: one eligible roster user, all FTE lookups failing,
absence queries succeeding empty. -/
theorem c7_eligible_records_with_degraded_fte_witness :
    ∃ m, load_user_availability
        (.ok [{ userid := 1, coregroup := "Full Time", fname := "A", lname := "B" }])
        (fun _ => .error ()) (fun _ => .ok []) = .ok m ∧
      (m.map (fun p => p.1)).Nodup ∧
      (∀ user ∈ [({ userid := 1, coregroup := "Full Time", fname := "A", lname := "B" } : RosterUser)],
        user.coregroup ∈ eligible_groups →
        ∃ r, dictLookup m user.userid = some r ∧ r.fte = 1 ∧
          r.vacation_dates = [] ∧ r.no_call_dates = [] ∧ r.part_time_dates = []) :=
  c7_eligible_records_with_degraded_fte
    [{ userid := 1, coregroup := "Full Time", fname := "A", lname := "B" }]
    (fun _ => .error ()) (fun _ => .ok []) rfl rfl rfl (fun _ => rfl)
